import Mathlib

/- Verification of the invoices-app credential-store adapter (HttpsEnforcingAPL)
   and the signature-verification capability patcher.  Endpoint identities are
   JavaScript strings, modelled as lists of characters. -/

namespace SaleorExamples

/-- The insecure scheme marker, the characters of "http://". -/
def httpMarker : List Char := ['h', 't', 't', 'p', ':', '/', '/']

/-- The secure scheme marker, the characters of "https://". -/
def httpsMarker : List Char := ['h', 't', 't', 'p', 's', ':', '/', '/']

/-- JavaScript `String.replace` with a plain-string pattern: replaces the first
    occurrence of `pat` (if any) with `rep`, scanning left to right. -/
def replaceFirst (pat rep : List Char) : List Char → List Char
  | [] => []
  | c :: rest =>
    if pat.isPrefixOf (c :: rest) then rep ++ (c :: rest).drop pat.length
    else c :: replaceFirst pat rep rest

/-- `normalizeSaleorApiUrl` from `lib/normalize-saleor-api-url.ts`:
    if the URL starts with "http://", replace the first occurrence of "http://"
    with "https://"; otherwise return it unchanged. -/
def normalizeSaleorApiUrl (s : List Char) : List Char :=
  if httpMarker.isPrefixOf s then replaceFirst httpMarker httpsMarker s else s

/-- JavaScript `String.replace` with an anchored regular expression `^pat`:
    if the string starts with `pat`, the leading `pat` is replaced by `rep`;
    otherwise the string is unchanged. -/
def anchoredReplace (pat rep s : List Char) : List Char :=
  if pat.isPrefixOf s then rep ++ s.drop pat.length else s

/-- `saleorApiUrl.replace(/^http:\/\//, "https://")` as computed by
    `HttpsEnforcingAPL.enforceHttps` and `HttpsEnforcingAPL.get`. -/
def toSecureUrl (s : List Char) : List Char := anchoredReplace httpMarker httpsMarker s

/-- `saleorApiUrl.replace(/^https:\/\//, "http://")` as computed by
    `HttpsEnforcingAPL.get`. -/
def toInsecureUrl (s : List Char) : List Char := anchoredReplace httpsMarker httpMarker s

/-- Auth record shape (`AuthData` of the app SDK, as used by the adapter and
    its tests): application id, endpoint identity, bearer token, key-set
    material. -/
structure AuthData where
  appId : List Char
  saleorApiUrl : List Char
  token : List Char
  jwks : List Char
deriving DecidableEq, Repr

/-- `HttpsEnforcingAPL.enforceHttps`: rewrite the record's endpoint identity
    with the anchored insecure-to-secure replacement, keep all other fields. -/
def enforceHttps (a : AuthData) : AuthData :=
  { a with saleorApiUrl := toSecureUrl a.saleorApiUrl }

/- ------------------------------------------------------------------ -/
/- Basic lemmas about the canonicalizer                               -/
/- ------------------------------------------------------------------ -/

theorem isPrefixOf_append_self (p s : List Char) : p.isPrefixOf (p ++ s) = true := by
  induction p with
  | nil => simp [List.isPrefixOf]
  | cons c cs ih => simp [List.isPrefixOf, ih]

theorem isPrefixOf_eq_true_iff (p s : List Char) :
    p.isPrefixOf s = true ↔ ∃ r, s = p ++ r := by
  rw [List.isPrefixOf_iff_prefix]
  constructor
  · rintro ⟨r, hr⟩; exact ⟨r, hr.symm⟩
  · rintro ⟨r, hr⟩; exact ⟨r, hr.symm⟩

theorem replaceFirst_append (pat rep r : List Char) (h : pat ≠ []) :
    replaceFirst pat rep (pat ++ r) = rep ++ r := by
  cases pat with
  | nil => exact absurd rfl h
  | cons c cs =>
    show replaceFirst (c :: cs) rep (c :: (cs ++ r)) = rep ++ r
    rw [replaceFirst]
    have h2 : (c :: cs).isPrefixOf (c :: (cs ++ r)) = true :=
      isPrefixOf_append_self (c :: cs) r
    rw [if_pos h2]
    simp

theorem httpMarker_ne_nil : httpMarker ≠ [] := by simp [httpMarker]

/-- On strings starting with the insecure marker, the first-occurrence replace
    of `normalizeSaleorApiUrl` rewrites exactly the leading marker. -/
theorem normalizeSaleorApiUrl_append (r : List Char) :
    normalizeSaleorApiUrl (httpMarker ++ r) = httpsMarker ++ r := by
  rw [normalizeSaleorApiUrl, if_pos (isPrefixOf_append_self httpMarker r)]
  exact replaceFirst_append httpMarker httpsMarker r httpMarker_ne_nil

theorem normalizeSaleorApiUrl_of_not_marker (s : List Char)
    (h : httpMarker.isPrefixOf s = false) : normalizeSaleorApiUrl s = s := by
  rw [normalizeSaleorApiUrl, h]
  simp

theorem toSecureUrl_append (r : List Char) :
    toSecureUrl (httpMarker ++ r) = httpsMarker ++ r := by
  rw [toSecureUrl, anchoredReplace, if_pos (isPrefixOf_append_self httpMarker r)]
  simp [httpMarker]

theorem toSecureUrl_of_not_marker (s : List Char)
    (h : httpMarker.isPrefixOf s = false) : toSecureUrl s = s := by
  rw [toSecureUrl, anchoredReplace, h]
  simp

/-- The anchored-regex rewrite of the adapter and the guarded first-occurrence
    rewrite of `normalizeSaleorApiUrl` are the same function. -/
theorem toSecureUrl_eq_normalize (s : List Char) :
    toSecureUrl s = normalizeSaleorApiUrl s := by
  cases h : httpMarker.isPrefixOf s with
  | false => rw [toSecureUrl_of_not_marker s h, normalizeSaleorApiUrl_of_not_marker s h]
  | true =>
    obtain ⟨r, hr⟩ := (isPrefixOf_eq_true_iff httpMarker s).mp h
    subst hr
    rw [toSecureUrl_append, normalizeSaleorApiUrl_append]

/-- A string starting with the secure marker never starts with the insecure
    marker (they differ at the fifth character). -/
theorem not_httpMarker_of_httpsMarker (t : List Char) :
    httpMarker.isPrefixOf (httpsMarker ++ t) = false := rfl

theorem normalizeSaleorApiUrl_idem (s : List Char) :
    normalizeSaleorApiUrl (normalizeSaleorApiUrl s) = normalizeSaleorApiUrl s := by
  cases h : httpMarker.isPrefixOf s with
  | false =>
    rw [normalizeSaleorApiUrl_of_not_marker s h, normalizeSaleorApiUrl_of_not_marker s h]
  | true =>
    obtain ⟨r, hr⟩ := (isPrefixOf_eq_true_iff httpMarker s).mp h
    subst hr
    rw [normalizeSaleorApiUrl_append,
      normalizeSaleorApiUrl_of_not_marker _ (not_httpMarker_of_httpsMarker r)]

theorem toSecureUrl_idem (s : List Char) :
    toSecureUrl (toSecureUrl s) = toSecureUrl s := by
  rw [toSecureUrl_eq_normalize, toSecureUrl_eq_normalize, normalizeSaleorApiUrl_idem]

theorem enforceHttps_idem (a : AuthData) :
    enforceHttps (enforceHttps a) = enforceHttps a := by
  simp [enforceHttps, toSecureUrl_idem]

/-- An endpoint identity is canonical when it is a fixed point of the
    canonicalizer (equivalently, it does not start with the insecure marker). -/
def IsCanonical (s : List Char) : Prop := normalizeSaleorApiUrl s = s

theorem isCanonical_toSecureUrl (s : List Char) : IsCanonical (toSecureUrl s) := by
  rw [IsCanonical, toSecureUrl_eq_normalize, normalizeSaleorApiUrl_idem]

/- ------------------------------------------------------------------ -/
/- Credential store adapter (`HttpsEnforcingAPL`)                     -/
/- ------------------------------------------------------------------ -/

/-- The backing store, read side: `baseApl.get` keyed by endpoint identity
    (backing-store contract of the spec, consumed as an opaque dependency). -/
abbrev Store := List Char → Option AuthData

/-- Observable outcome of one `HttpsEnforcingAPL.get` call: the returned
    record, the backing-store keys queried in order, and the warning
    diagnostics emitted (each carries the requested identity). -/
structure GetTrace where
  result : Option AuthData
  queried : List (List Char)
  warnings : List (List Char)
deriving DecidableEq, Repr

namespace HttpsEnforcingAPL

/-- `HttpsEnforcingAPL.get`: query `httpsUrl`, then `httpUrl` if not found,
    then the original URL; rewrite any hit with `enforceHttps`; log one
    warning carrying the requested URL when nothing was found. -/
def get (store : Store) (saleorApiUrl : List Char) : GetTrace :=
  match store (toSecureUrl saleorApiUrl) with
  | some a => ⟨some (enforceHttps a), [toSecureUrl saleorApiUrl], []⟩
  | none =>
    match store (toInsecureUrl saleorApiUrl) with
    | some a => ⟨some (enforceHttps a), [toSecureUrl saleorApiUrl, toInsecureUrl saleorApiUrl], []⟩
    | none =>
      match store saleorApiUrl with
      | some a =>
        ⟨some (enforceHttps a),
          [toSecureUrl saleorApiUrl, toInsecureUrl saleorApiUrl, saleorApiUrl], []⟩
      | none =>
        ⟨none, [toSecureUrl saleorApiUrl, toInsecureUrl saleorApiUrl, saleorApiUrl],
          [saleorApiUrl]⟩

/-- The single record `HttpsEnforcingAPL.set` delegates to `baseApl.set`:
    the caller's record with its identity rewritten. -/
def setRecord (a : AuthData) : AuthData := enforceHttps a

/-- Modelled from the spec (backing-store contract, §6): the opaque backing
    store missing from the repository is a key-value map from endpoint
    identity to record; its write stores the record under the record's own
    `saleorApiUrl` key. -/
def storeWrite (store : Store) (a : AuthData) : Store :=
  fun k => if k = a.saleorApiUrl then some a else store k

/-- `HttpsEnforcingAPL.set` acting on the modelled backing store: one write
    of the rewritten record. -/
def set (store : Store) (a : AuthData) : Store := storeWrite store (setRecord a)

/-- The backing store, delete side: `baseApl.delete` may resolve (`ok`) or
    reject (`error`) for a given key. -/
abbrev DeleteStore := List Char → Except (List Char) Unit

/-- `HttpsEnforcingAPL.delete`: issue `baseApl.delete` for the secure variant
    and for the original URL, and `Promise.allSettled` both — the adapter
    returns the list of (key, settled outcome) pairs and never itself
    rejects, so its own result type is `Except`-ok unconditionally. -/
def delete (del : DeleteStore) (saleorApiUrl : List Char) :
    Except (List Char) (List ((List Char) × Except (List Char) Unit)) :=
  Except.ok
    [(toSecureUrl saleorApiUrl, del (toSecureUrl saleorApiUrl)),
     (saleorApiUrl, del saleorApiUrl)]

/-- `HttpsEnforcingAPL.getAll`: map `enforceHttps` over everything the
    backing store enumerates. -/
def getAll (allAuthData : List AuthData) : List AuthData :=
  allAuthData.map enforceHttps

end HttpsEnforcingAPL

/- ------------------------------------------------------------------ -/
/- Capability patcher (`bypass-signature-verification.ts`)            -/
/- ------------------------------------------------------------------ -/

/-- A verification function as stored in a module's exports: takes the JWKS
    key-set material, the signature and the raw body, and either resolves
    (ok) or rejects (error). -/
abbrev VerifyFn := List Char → List Char → List Char → Except (List Char) Unit

/-- The override installed by `patchSignatureFunction`: logs and then always
    returns `Promise.resolve()`, ignoring its three arguments. -/
def bypassVerify : VerifyFn := fun _ _ _ => Except.ok ()

/-- The exported surface of a loaded module, restricted to the slots the
    patcher reads and writes: the direct `verifySignatureWithJwks` export and
    the one reached through the default-export indirection. -/
structure ModuleExports where
  verifySignatureWithJwks : Option VerifyFn
  defaultVerifySignatureWithJwks : Option VerifyFn

/-- One entry of `require.cache`: its identifying path and (when present) its
    exports object. -/
structure JsModule where
  path : List Char
  exports : Option ModuleExports

/-- The live module registry; `enumerationFails` models the environment
    raising an exception while the cache is enumerated or inspected. -/
structure Registry where
  modules : List JsModule
  enumerationFails : Bool

def sdkMarker : List Char := ('@' :: "saleor/app-sdk".data)
def chunkMarker : List Char := "chunk-SB7ROIUN".data
def handlersNextMarker : List Char := "handlers/next".data
def verifyMarker : List Char := "verify".data

/-- JavaScript `String.includes`: `pat` occurs contiguously in the string. -/
def jsIncludes (pat : List Char) : List Char → Bool
  | [] => pat.isEmpty
  | c :: rest => pat.isPrefixOf (c :: rest) || jsIncludes pat rest

/-- The `sdkModules` filter of `patchLoadedModules`: the key contains the SDK
    marker and one of the chunk / handlers-next / verify markers. -/
def isCandidatePath (p : List Char) : Bool :=
  jsIncludes sdkMarker p &&
    (jsIncludes chunkMarker p || jsIncludes handlersNextMarker p || jsIncludes verifyMarker p)

/-- Patch one exports object: replace the direct export if present, then the
    default-export slot if present, counting each replacement. -/
def patchExports (e : ModuleExports) : ModuleExports × Nat :=
  let step1 : ModuleExports × Nat :=
    match e.verifySignatureWithJwks with
    | some _ => ({ e with verifySignatureWithJwks := some bypassVerify }, 1)
    | none => (e, 0)
  match step1.fst.defaultVerifySignatureWithJwks with
  | some _ =>
    ({ step1.fst with defaultVerifySignatureWithJwks := some bypassVerify }, step1.snd + 1)
  | none => (step1.fst, step1.snd)

/-- Process one cache entry: entries outside the SDK filter, and entries with
    no exports object, are untouched. -/
def patchModule (m : JsModule) : JsModule × Nat :=
  if isCandidatePath m.path then
    match m.exports with
    | some e => (⟨m.path, some (patchExports e).fst⟩, (patchExports e).snd)
    | none => (m, 0)
  else (m, 0)

/-- The body of the first try-block of `patchLoadedModules`: enumerate the
    cache and patch every candidate, or raise if enumeration raises. -/
def scanAndPatch (reg : Registry) : Except (List Char) (List JsModule × Nat) :=
  if reg.enumerationFails then Except.error "enumeration failed".data
  else
    Except.ok
      ((reg.modules.map patchModule).map Prod.fst,
        ((reg.modules.map patchModule).map Prod.snd).sum)

/-- Observable outcome of one `patchLoadedModules` pass. -/
structure PatchOutcome where
  modules : List JsModule
  patchedCount : Nat
  warnedNoMatch : Bool
  caughtError : Bool

/-- `patchLoadedModules`: the try/catch around the scan.  A raise is caught
    and logged (`caughtError`), leaving the registry untouched; a successful
    scan with zero patches logs the "nothing found to patch" warning. -/
def patchLoadedModules (reg : Registry) : PatchOutcome :=
  match scanAndPatch reg with
  | Except.ok (ms, c) => ⟨ms, c, decide (c = 0), false⟩
  | Except.error _ => ⟨reg.modules, 0, false, true⟩

/-- `bypassSignatureVerification`: an immediate `patchLoadedModules` pass and
    a delayed second pass (the `setTimeout` retry), each behind its own
    catch; the caller-facing result never carries an error. -/
def bypassSignatureVerification (reg : Registry) : Except (List Char) PatchOutcome :=
  Except.ok (patchLoadedModules ⟨(patchLoadedModules reg).modules, reg.enumerationFails⟩)

/- ------------------------------------------------------------------ -/
/- Claim theorems                                                     -/
/- ------------------------------------------------------------------ -/

/-- Claim C2: canonicalization is a pure total prefix rewrite — on any string
    that starts with the insecure marker it replaces exactly that leading
    marker with the secure marker, leaving the remainder character for
    character unchanged, and on any string that does not start with the
    insecure marker it returns the input unchanged.  This holds both for
    `normalizeSaleorApiUrl` and for the adapter's `enforceHttps` rewrite. -/
theorem claim_c2_canonicalize_prefix_rewrite (s : List Char) :
    (∀ r, s = httpMarker ++ r →
      normalizeSaleorApiUrl s = httpsMarker ++ r ∧ toSecureUrl s = httpsMarker ++ r)
    ∧ (httpMarker.isPrefixOf s = false →
      normalizeSaleorApiUrl s = s ∧ toSecureUrl s = s) := by
  constructor
  · rintro r rfl
    exact ⟨normalizeSaleorApiUrl_append r, toSecureUrl_append r⟩
  · intro h
    exact ⟨normalizeSaleorApiUrl_of_not_marker s h, toSecureUrl_of_not_marker s h⟩

theorem claim_c2_witness :
    normalizeSaleorApiUrl ('h' :: 't' :: 't' :: 'p' :: ':' :: '/' :: '/' :: 'x' :: '/' :: []) =
      ('h' :: 't' :: 't' :: 'p' :: 's' :: ':' :: '/' :: '/' :: 'x' :: '/' :: [])
    ∧ normalizeSaleorApiUrl ('f' :: 't' :: 'p' :: []) = ('f' :: 't' :: 'p' :: []) := by
  refine ⟨?_, ?_⟩
  · exact ((claim_c2_canonicalize_prefix_rewrite (httpMarker ++ ['x', '/'])).1
      ['x', '/'] rfl).1
  · exact ((claim_c2_canonicalize_prefix_rewrite ['f', 't', 'p']).2 (by decide)).1

/-- Claim C10: canonicalization is idempotent and its output never begins
    with the insecure marker, so every canonicalized value is a fixed point
    — for the url rewrite in both of its source forms and for the
    record-level `enforceHttps`. -/
theorem claim_c10_canonicalize_idempotent (s : List Char) (a : AuthData) :
    normalizeSaleorApiUrl (normalizeSaleorApiUrl s) = normalizeSaleorApiUrl s
    ∧ toSecureUrl (toSecureUrl s) = toSecureUrl s
    ∧ httpMarker.isPrefixOf (normalizeSaleorApiUrl s) = false
    ∧ enforceHttps (enforceHttps a) = enforceHttps a := by
  refine ⟨normalizeSaleorApiUrl_idem s, toSecureUrl_idem s, ?_, enforceHttps_idem a⟩
  cases h : httpMarker.isPrefixOf s with
  | false => rw [normalizeSaleorApiUrl_of_not_marker s h]; exact h
  | true =>
    obtain ⟨r, hr⟩ := (isPrefixOf_eq_true_iff httpMarker s).mp h
    subst hr
    rw [normalizeSaleorApiUrl_append]
    exact not_httpMarker_of_httpsMarker r

/-- Claim C1: `get` queries the canonical (secure) form first, then the
    insecure form, then the original identity, short-circuiting at the
    first hit; it returns the first record found with its identity
    canonicalized, and makes at most three backing-store reads; the first
    key queried is exactly the canonicalizer's output. -/
theorem claim_c1_read_fallback_order (store : Store) (u : List Char) :
    ((store (toSecureUrl u)).isSome = true →
      (HttpsEnforcingAPL.get store u).queried = [toSecureUrl u])
    ∧ (store (toSecureUrl u) = none → (store (toInsecureUrl u)).isSome = true →
      (HttpsEnforcingAPL.get store u).queried = [toSecureUrl u, toInsecureUrl u])
    ∧ (store (toSecureUrl u) = none → store (toInsecureUrl u) = none →
      (HttpsEnforcingAPL.get store u).queried = [toSecureUrl u, toInsecureUrl u, u])
    ∧ (HttpsEnforcingAPL.get store u).result =
      Option.map enforceHttps
        ((store (toSecureUrl u)).or ((store (toInsecureUrl u)).or (store u)))
    ∧ (HttpsEnforcingAPL.get store u).queried.length ≤ 3
    ∧ toSecureUrl u = normalizeSaleorApiUrl u := by
  refine ⟨?_, ?_, ?_, ?_, ?_, toSecureUrl_eq_normalize u⟩ <;>
  · cases h1 : store (toSecureUrl u) <;> cases h2 : store (toInsecureUrl u) <;>
      cases h3 : store u <;>
      simp [HttpsEnforcingAPL.get, h1, h2, h3, Option.or]

theorem claim_c1_witness :
    (HttpsEnforcingAPL.get
        (fun k => if k = "https://x".data then some ⟨"app".data, "https://x".data, "tok".data, "jwks".data⟩ else none)
        "http://x".data).queried = ["https://x".data] := by
  exact (claim_c1_read_fallback_order
    (fun k => if k = "https://x".data then some ⟨"app".data, "https://x".data, "tok".data, "jwks".data⟩ else none)
    "http://x".data).1 (by decide)

/-- Claim C4: when all three candidate keys miss, `get` returns absent (not
    an error), after exactly three backing-store queries, and emits exactly
    one warning diagnostic carrying the originally requested identity. -/
theorem claim_c4_read_all_miss (store : Store) (u : List Char)
    (h1 : store (toSecureUrl u) = none) (h2 : store (toInsecureUrl u) = none)
    (h3 : store u = none) :
    (HttpsEnforcingAPL.get store u).result = none
    ∧ (HttpsEnforcingAPL.get store u).queried.length = 3
    ∧ (HttpsEnforcingAPL.get store u).warnings = [u] := by
  simp [HttpsEnforcingAPL.get, h1, h2, h3]

theorem claim_c4_witness :
    (HttpsEnforcingAPL.get (fun _ => none) "http://x".data).result = none
    ∧ (HttpsEnforcingAPL.get (fun _ => none) "http://x".data).queried.length = 3
    ∧ (HttpsEnforcingAPL.get (fun _ => none) "http://x".data).warnings = ["http://x".data] :=
  claim_c4_read_all_miss (fun _ => none) "http://x".data rfl rfl rfl

/-- Claim C3: every record persisted through `set` and every record returned
    by `get` or `getAll` carries a canonical identity, whatever scheme the
    caller supplied; `set` performs a single write, so the only record it
    adds to the backing store is the canonicalized one. -/
theorem claim_c3_canonical_identity_invariant (store : Store) (r : AuthData)
    (u : List Char) (l : List AuthData) :
    IsCanonical (HttpsEnforcingAPL.setRecord r).saleorApiUrl
    ∧ (∀ k a, HttpsEnforcingAPL.set store r k = some a →
      store k = some a ∨ a = HttpsEnforcingAPL.setRecord r)
    ∧ (∀ a, (HttpsEnforcingAPL.get store u).result = some a →
      IsCanonical a.saleorApiUrl)
    ∧ (∀ a ∈ HttpsEnforcingAPL.getAll l, IsCanonical a.saleorApiUrl) := by
  refine ⟨isCanonical_toSecureUrl r.saleorApiUrl, ?_, ?_, ?_⟩
  · intro k a h
    rw [HttpsEnforcingAPL.set, HttpsEnforcingAPL.storeWrite] at h
    by_cases hk : k = (HttpsEnforcingAPL.setRecord r).saleorApiUrl
    · rw [if_pos hk] at h
      right
      exact (Option.some_inj.mp h).symm
    · rw [if_neg hk] at h
      left
      exact h
  · intro a h
    cases h1 : store (toSecureUrl u) <;> cases h2 : store (toInsecureUrl u) <;>
      cases h3 : store u <;>
      simp [HttpsEnforcingAPL.get, h1, h2, h3] at h <;>
      · rw [← h]
        exact isCanonical_toSecureUrl _
  · intro a ha
    rw [HttpsEnforcingAPL.getAll] at ha
    obtain ⟨b, _, hb⟩ := List.mem_map.mp ha
    rw [← hb]
    exact isCanonical_toSecureUrl _

theorem claim_c3_witness :
    IsCanonical (HttpsEnforcingAPL.setRecord
      ⟨"app".data, "http://x".data, "tok".data, "jwks".data⟩).saleorApiUrl
    ∧ IsCanonical (enforceHttps
      ⟨"app".data, "http://x".data, "tok".data, "jwks".data⟩).saleorApiUrl := by
  have h := claim_c3_canonical_identity_invariant (fun _ => none)
    ⟨"app".data, "http://x".data, "tok".data, "jwks".data⟩ "http://x".data
    [⟨"app".data, "http://x".data, "tok".data, "jwks".data⟩]
  refine ⟨h.1, h.2.2.2 _ ?_⟩
  simp [HttpsEnforcingAPL.getAll]

/-- Claim C5: writing a record and then reading it back under the key the
    caller originally supplied yields the record unchanged in every field
    except the identity, which comes back canonicalized. -/
theorem claim_c5_write_read_roundtrip (store : Store) (r : AuthData) :
    (HttpsEnforcingAPL.get (HttpsEnforcingAPL.set store r) r.saleorApiUrl).result =
      some ⟨r.appId, normalizeSaleorApiUrl r.saleorApiUrl, r.token, r.jwks⟩ := by
  have hkey : HttpsEnforcingAPL.set store r (toSecureUrl r.saleorApiUrl) =
      some (enforceHttps r) := by
    simp [HttpsEnforcingAPL.set, HttpsEnforcingAPL.storeWrite,
      HttpsEnforcingAPL.setRecord, enforceHttps]
  have hresult :
      (HttpsEnforcingAPL.get (HttpsEnforcingAPL.set store r) r.saleorApiUrl).result =
        some (enforceHttps (enforceHttps r)) := by
    rw [HttpsEnforcingAPL.get, hkey]
  rw [hresult, enforceHttps_idem]
  rw [enforceHttps, toSecureUrl_eq_normalize]

/-- Claim C6: `delete` issues exactly two backing-store delete calls — the
    canonical form first, then the original identity — collects both settled
    outcomes, and itself completes without error whatever the two
    sub-deletes do. -/
theorem claim_c6_delete_two_settled (del : HttpsEnforcingAPL.DeleteStore)
    (u : List Char) :
    ∃ outs, HttpsEnforcingAPL.delete del u = Except.ok outs
      ∧ outs.map Prod.fst = [toSecureUrl u, u]
      ∧ outs.length = 2
      ∧ outs.map Prod.snd = [del (toSecureUrl u), del u] :=
  ⟨[(toSecureUrl u, del (toSecureUrl u)), (u, del u)], rfl, rfl, rfl, rfl⟩

/-- Claim C7: `getAll` preserves the backing store's count and order,
    rewriting each record's identity to canonical form pointwise. -/
theorem claim_c7_getAll_pointwise (l : List AuthData) (i : Nat) :
    (HttpsEnforcingAPL.getAll l).length = l.length
    ∧ (HttpsEnforcingAPL.getAll l)[i]? = Option.map enforceHttps l[i]? := by
  constructor
  · rw [HttpsEnforcingAPL.getAll, List.length_map]
  · rw [HttpsEnforcingAPL.getAll, List.getElem?_map]

/-- Claim C8: on a candidate module whose exports carry the verification
    function — directly or through the default-export indirection — a
    patch pass replaces that function with `bypassVerify`, which takes the
    same three positional arguments and resolves successfully for arbitrary
    argument values; `patchLoadedModules` applies exactly this per-module
    patch across the registry. -/
theorem claim_c8_patch_installs_bypass (reg : Registry) (m : JsModule)
    (e : ModuleExports) (f : VerifyFn) :
    (reg.enumerationFails = false →
      (patchLoadedModules reg).modules = reg.modules.map (fun x => (patchModule x).fst))
    ∧ (isCandidatePath m.path = true → m.exports = some e →
      (e.verifySignatureWithJwks = some f →
        ∃ e2, (patchModule m).fst.exports = some e2
          ∧ e2.verifySignatureWithJwks = some bypassVerify)
      ∧ (e.defaultVerifySignatureWithJwks = some f →
        ∃ e2, (patchModule m).fst.exports = some e2
          ∧ e2.defaultVerifySignatureWithJwks = some bypassVerify))
    ∧ (∀ j s b, bypassVerify j s b = Except.ok ()) := by
  refine ⟨?_, fun hc he => ⟨?_, ?_⟩, fun _ _ _ => rfl⟩
  · intro h
    simp [patchLoadedModules, scanAndPatch, h]
  · intro hf
    cases hd : e.defaultVerifySignatureWithJwks <;>
      simp [patchModule, patchExports, hc, he, hf, hd]
  · intro hd
    cases hf : e.verifySignatureWithJwks <;>
      simp [patchModule, patchExports, hc, he, hf, hd]

theorem claim_c8_witness :
    (∃ e2,
      (patchModule
        ⟨"/node_modules/@saleor/app-sdk/dist/chunk-SB7ROIUN.mjs".data,
          some ⟨some (fun _ _ _ => Except.error "rejected".data), none⟩⟩).fst.exports = some e2
      ∧ e2.verifySignatureWithJwks = some bypassVerify)
    ∧ bypassVerify "jwks".data "sig".data "body".data = Except.ok () := by
  have h := claim_c8_patch_installs_bypass ⟨[], false⟩
    ⟨"/node_modules/@saleor/app-sdk/dist/chunk-SB7ROIUN.mjs".data,
      some ⟨some (fun _ _ _ => Except.error "rejected".data), none⟩⟩
    ⟨some (fun _ _ _ => Except.error "rejected".data), none⟩
    (fun _ _ _ => Except.error "rejected".data)
  exact ⟨(h.2.1 (by decide) rfl).1 rfl, h.2.2 _ _ _⟩

/-- Claim C9: the patcher contains every registry failure — a raise during
    enumeration is caught, logged and leaves the registry untouched, the
    caller-facing operation always yields an ok outcome, and a successful
    scan that patches nothing completes normally with zero patches and the
    no-match warning emitted. -/
theorem claim_c9_patcher_contains_errors (reg : Registry) :
    (bypassSignatureVerification reg).isOk = true
    ∧ (reg.enumerationFails = true →
      patchLoadedModules reg = ⟨reg.modules, 0, false, true⟩)
    ∧ (reg.enumerationFails = false →
      (∀ m ∈ reg.modules, (patchModule m).snd = 0) →
      (patchLoadedModules reg).patchedCount = 0
      ∧ (patchLoadedModules reg).warnedNoMatch = true
      ∧ (patchLoadedModules reg).caughtError = false) := by
  refine ⟨rfl, ?_, ?_⟩
  · intro h
    simp [patchLoadedModules, scanAndPatch, h]
  · intro h hzero
    have hsum : ((reg.modules.map patchModule).map Prod.snd).sum = 0 := by
      apply List.sum_eq_zero
      intro x hx
      obtain ⟨p, hp, hpx⟩ := List.mem_map.mp hx
      obtain ⟨m, hm, hmp⟩ := List.mem_map.mp hp
      rw [← hpx, ← hmp]
      exact hzero m hm
    rw [List.map_map] at hsum
    simp [patchLoadedModules, scanAndPatch, h, hsum]

theorem claim_c9_witness :
    patchLoadedModules ⟨[], true⟩ = ⟨[], 0, false, true⟩
    ∧ (patchLoadedModules ⟨[], false⟩).patchedCount = 0
    ∧ (patchLoadedModules ⟨[], false⟩).warnedNoMatch = true := by
  have ha := claim_c9_patcher_contains_errors ⟨[], true⟩
  have hb := claim_c9_patcher_contains_errors ⟨[], false⟩
  have hb2 := hb.2.2 rfl (by intro m hm; cases hm)
  exact ⟨ha.2.1 rfl, hb2.1, hb2.2.1⟩

end SaleorExamples
